import Mathlib

/-!
# Verification of the message-point tracker (`bot.py`, `config.py`)

Shallow embedding of the hourly message-point tracker:

* configuration constants from `config.py`,
* the classifier `identify_message_point`,
* the mutable tracker state `hourly_tracker` (a Python dict from hour key
  to a set of point labels), modelled as an insertion-ordered association
  list `List (String × Finset String)`,
* the message-handling path `handle_message`,
* the summary path `send_hourly_summary` / `run_summary` (the outbound
  `send_message` is a boundary effect, modelled by an `Except` parameter
  standing for its success or raised exception),
* the pruning routine `cleanup_old_data`,
* the hour-bucket key `strftime "%Y-%m-%d-%H"`, modelled on timestamps
  truncated to the hour.
-/

/-! ## Configuration (`config.py`) -/

/-- `CHAT_ID` from `config.py` (default value of the environment variable). -/
def CHAT_ID : Int := -1002180864230

/-- `TARGET_BOT_USERNAME` from `config.py`. -/
def TARGET_BOT_USERNAME : String := "MyCAEVC_bot"

/-- `EXPECTED_MESSAGES` from `config.py`. -/
def EXPECTED_MESSAGES : List String := ["P1", "P2", "P3", "P4"]

/-- `MESSAGE_PATTERNS` from `config.py`; a Python dict iterates in insertion
order, so it is modelled as an ordered association list. -/
def MESSAGE_PATTERNS : List (String × List String) :=
  [("P1", ["P1 "]), ("P2", ["P2 "]), ("P3", ["P3 "]), ("P4", ["P4 "])]

/-- The full category set: `set(EXPECTED_MESSAGES)` as it appears on
line 111 of `bot.py`. -/
def fullCategorySet : Finset String := EXPECTED_MESSAGES.toFinset

/-! ## Classifier (`identify_message_point`, bot.py lines 27-38) -/

/-- Python `str.lower()` restricted to the ASCII range used by the
patterns and texts of interest. -/
def strLower (s : String) : String := ⟨s.data.map Char.toLower⟩

/-- The needle is an initial segment of the haystack. -/
def startsWithChars : List Char → List Char → Bool
  | [], _ => true
  | _ :: _, [] => false
  | a :: as, b :: bs => a == b && startsWithChars as bs

/-- Python's substring test `needle in haystack` on character lists:
the needle occurs at some position of the haystack. -/
def occursIn (needle : List Char) : List Char → Bool
  | [] => needle.isEmpty
  | c :: rest => startsWithChars needle (c :: rest) || occursIn needle rest

/-- `pattern.lower() in text_lower`: case-insensitive substring test. -/
def patternHits (pattern : String) (text : String) : Bool :=
  occursIn (strLower pattern).data (strLower text).data

/-- The nested `for point_type, patterns in MESSAGE_PATTERNS.items(): for
pattern in patterns: if ...: return point_type` loop (bot.py lines 34-38). -/
def findPoint : List (String × List String) → String → Option String
  | [], _ => none
  | (point_type, patterns) :: rest, text =>
    if patterns.any (fun pattern => patternHits pattern text) then some point_type
    else findPoint rest text

/-- `identify_message_point` (bot.py lines 27-38).  `if not text: return
None` covers both an absent text (`None`) and the empty string. -/
def identify_message_point (text : Option String) : Option String :=
  match text with
  | none => none
  | some t => if t = "" then none else findPoint MESSAGE_PATTERNS t

/-! ## Tracker state and ingestion (`handle_message`, bot.py lines 51-101) -/

/-- The tracker's only mutable state: `self.hourly_tracker`, a dict from
hour key to the set of received points, in insertion order. -/
structure TrackerState where
  hourly_tracker : List (String × Finset String)
deriving DecidableEq

/-- Lines 84-88 of `bot.py`: create the entry on first use, then
`add` the point to the bucket's set (Python dict update semantics:
an existing key keeps its position, a new key is appended). -/
def ingestList : List (String × Finset String) → String → String →
    List (String × Finset String)
  | [], hour_key, point => [(hour_key, {point})]
  | (k, s) :: rest, hour_key, point =>
    if k = hour_key then (k, insert point s) :: rest
    else (k, s) :: ingestList rest hour_key point

/-- State-level ingestion of one classified point into one bucket. -/
def ingest (st : TrackerState) (hour_key point : String) : TrackerState :=
  ⟨ingestList st.hourly_tracker hour_key point⟩

/-- `self.hourly_tracker.get(hour_key, set())` (bot.py line 110/196):
read a bucket's set without mutating, defaulting to the empty set. -/
def snapshot (st : TrackerState) (hour_key : String) : Finset String :=
  (st.hourly_tracker.lookup hour_key).getD ∅

/-- A Telegram user as far as `handle_message` inspects it. -/
structure TgUser where
  username : Option String
  first_name : Option String
deriving DecidableEq

/-- An inbound update as far as `handle_message` inspects it. -/
structure TgMessage where
  chat_id : Int
  from_user : Option TgUser
  text : Option String
deriving DecidableEq

/-- Line 57 of `bot.py`:
`update.message.text[:100] if update.message.text else 'No text'`.
An absent or empty (falsy) text becomes the literal string `"No text"`;
otherwise the text is truncated to its first 100 characters. -/
def message_text_of (text : Option String) : String :=
  match text with
  | some s => if s = "" then "No text" else ⟨s.data.take 100⟩
  | none => "No text"

/-- Lines 73-74 of `bot.py`: the sender check
`update.message.from_user and update.message.from_user.username == TARGET_BOT_USERNAME`. -/
def senderIsTarget (msg : TgMessage) : Bool :=
  match msg.from_user with
  | some u => u.username == some TARGET_BOT_USERNAME
  | none => false

/-- `handle_message` (bot.py lines 51-101), restricted to its effect on the
tracker state; logging is pure I/O.  The current hour key (line 81) is a
parameter because it is read from the wall clock. -/
def handle_message (st : TrackerState) (msg : TgMessage) (hour_key : String) :
    TrackerState :=
  if msg.chat_id ≠ CHAT_ID then st
  else if senderIsTarget msg then
    match identify_message_point (some (message_text_of msg.text)) with
    | some point => ingest st hour_key point
    | none => st
  else st

/-! ## Summary rendering and the hourly tick (bot.py lines 103-160, 175-183) -/

/-- The tri-state status of lines 117-125 of `bot.py`. -/
inductive SummaryStatus
  | complete
  | incomplete
  | noMessages
deriving DecidableEq

/-- Lines 117-125: `len(received) == len(EXPECTED_MESSAGES)` gives
COMPLETE, `len(received) > 0` gives INCOMPLETE, otherwise NO MESSAGES. -/
def statusOf (received : Finset String) : SummaryStatus :=
  if received.card = EXPECTED_MESSAGES.length then .complete
  else if received.card > 0 then .incomplete
  else .noMessages

/-- The data computed by the summary rendering (bot.py lines 110-125):
`received`, `missing = set(EXPECTED_MESSAGES) - received`, and the status. -/
structure Summary where
  received : Finset String
  missing : Finset String
  status : SummaryStatus
deriving DecidableEq

/-- The pure part of `send_hourly_summary`: the sets and status for the
given bucket. -/
def render_summary (st : TrackerState) (hour_key : String) : Summary :=
  let received := snapshot st hour_key
  { received := received
    missing := fullCategorySet \ received
    status := statusOf received }

/-- `cleanup_old_data` (bot.py lines 152-160): delete every key that
compares strictly below the cutoff key under Python string comparison
(lexicographic by code point), keeping the rest untouched. -/
def cleanup_old_data (m : List (String × Finset String)) (cutoff_key : String) :
    List (String × Finset String) :=
  m.filter (fun kv => ! decide (kv.1 < cutoff_key))

/-- `send_hourly_summary` (bot.py lines 103-150).  The summary is rendered,
then `send_message` runs at the transport boundary — its outcome is the
`sendResult` parameter; a raised exception (`Except.error`) propagates
immediately, so `cleanup_old_data` (line 150) runs only after a
successful send.  Hour and cutoff keys are parameters because they are
read from the wall clock. -/
def send_hourly_summary (st : TrackerState) (hour_key cutoff_key : String)
    (sendResult : Except Unit Unit) : Except Unit TrackerState :=
  let _summary := render_summary st hour_key
  match sendResult with
  | .error e => .error e
  | .ok _ => .ok ⟨cleanup_old_data st.hourly_tracker cutoff_key⟩

/-- `run_summary` (bot.py lines 175-183): runs `send_hourly_summary` and
catches any exception, leaving the tracker state as it was at the point
the exception was raised. -/
def run_summary (st : TrackerState) (hour_key cutoff_key : String)
    (sendResult : Except Unit Unit) : TrackerState :=
  match send_hourly_summary st hour_key cutoff_key sendResult with
  | .ok st' => st'
  | .error _ => st

/-! ## Reachable tracker states

The state starts empty (`__init__`, line 24) and is only ever changed by
`handle_message` (ingestion) and `run_summary` (pruning after a
successful send); `status_command` and `snapshot` are pure reads. -/

inductive Reachable : TrackerState → Prop
  | init : Reachable ⟨[]⟩
  | msg (st : TrackerState) (m : TgMessage) (hour_key : String) :
      Reachable st → Reachable (handle_message st m hour_key)
  | tick (st : TrackerState) (hour_key cutoff_key : String)
      (sendResult : Except Unit Unit) :
      Reachable st → Reachable (run_summary st hour_key cutoff_key sendResult)

/-- The invariant of the tracker state: every bucket's observed set is a
subset of the full category set. -/
def WellFormed (st : TrackerState) : Prop :=
  ∀ k s, (k, s) ∈ st.hourly_tracker → s ⊆ fullCategorySet

/-- A sample inbound message from the configured chat and sender carrying
a `P1` report. -/
def msgP1 : TgMessage :=
  { chat_id := CHAT_ID
    from_user := some { username := some "MyCAEVC_bot", first_name := none }
    text := some "P1 reading" }

/-- The tracker state after handling `msgP1` in bucket `2024-01-01-09`. -/
def stAfterOne : TrackerState := handle_message ⟨[]⟩ msgP1 "2024-01-01-09"

/-- A tracker state holding one stale bucket, from well before any cutoff
used below. -/
def stBeforeTick : TrackerState := ⟨[("2020-01-01-00", {"P1"})]⟩

/-- A sample inbound message from the configured chat and sender whose
text contains no pattern. -/
def msgShort : TgMessage :=
  { chat_id := CHAT_ID
    from_user := some { username := some "MyCAEVC_bot", first_name := none }
    text := some "status ok" }

/-- The flattened list of all configured patterns, in check order. -/
def allPatterns : List String := (MESSAGE_PATTERNS.map Prod.snd).flatten

/-- An occurrence of `pattern` at character index `i` of `text`,
case-insensitively: the lowered pattern equals the slice of the lowered
text that starts at index `i`. -/
def occursAt (pattern text : String) (i : Nat) : Bool :=
  ((strLower text).data.drop i).take (strLower pattern).data.length ==
    (strLower pattern).data

/-! ## Hour-bucket keys (`get_current_hour_key`, bot.py lines 40-42)

`datetime.utcnow().strftime('%Y-%m-%d-%H')` depends only on the
timestamp truncated to the hour, so a timestamp is modelled by its year,
month, day and hour fields. -/

/-- A timestamp truncated to the hour, in the fixed reference (UTC)
timezone. -/
structure HourStamp where
  year : Nat
  month : Nat
  day : Nat
  hour : Nat

/-- The character of a decimal digit. -/
def digitChar (n : Nat) : Char := Char.ofNat (48 + n)

/-- A number printed as exactly two digits (zero-padded), as `%m`, `%d`
and `%H` print their in-range arguments. -/
def digits2 (n : Nat) : List Char := [digitChar (n / 10), digitChar (n % 10)]

/-- A number printed as exactly four digits, as `%Y` prints years in
1000..9999. -/
def digits4 (n : Nat) : List Char := digits2 (n / 100) ++ digits2 (n % 100)

/-- `strftime('%Y-%m-%d-%H')` of a timestamp with a four-digit year:
the padded fields joined by `-`. -/
def hourKeyChars (t : HourStamp) : List Char :=
  digits4 t.year ++
    '-' :: (digits2 t.month ++ '-' :: (digits2 t.day ++ '-' :: digits2 t.hour))

/-- The bucket key as the string actually stored and compared. -/
def hour_key_of (t : HourStamp) : String := ⟨hourKeyChars t⟩

/-- Chronological order on hour-truncated timestamps: `t1` falls in an
earlier wall-clock hour than `t2`. -/
def chronoLT (a b : HourStamp) : Prop :=
  a.year < b.year ∨ (a.year = b.year ∧ (a.month < b.month ∨ (a.month = b.month ∧
    (a.day < b.day ∨ (a.day = b.day ∧ a.hour < b.hour)))))

/-- Field bounds under which `strftime` produces a four-digit year and
two-digit month, day and hour; every timestamp handled by the running
program satisfies them. -/
def HourStamp.valid (t : HourStamp) : Prop :=
  1000 ≤ t.year ∧ t.year ≤ 9999 ∧ t.month ≤ 99 ∧ t.day ≤ 99 ∧ t.hour ≤ 99

example : identify_message_point (some "P1 reading 5") = some "P1" := by decide
example : identify_message_point (some "No text") = none := by decide
example : identify_message_point (some "p2 a p1 b") = some "P1" := by decide
example : identify_message_point (some "P1") = none := by decide
example :
    snapshot (ingest (ingest ⟨[]⟩ "2024-01-01-09" "P1") "2024-01-01-09" "P3")
      "2024-01-01-09" = {"P1", "P3"} := by decide

/-! ## Order on hour-key strings

Lean's `Decidable` instance for `String` comparison goes through the
iterator-based `String.ltb` and does not kernel-reduce, so concrete
comparisons are settled on the underlying character lists, to which
`s < t` is definitionally equal. -/

theorem string_lt_of_data {s t : String} (h : s.data < t.data) : s < t :=
  String.lt_iff_toList_lt.mpr h

theorem string_not_lt_of_data {s t : String} (h : ¬ s.data < t.data) : ¬ s < t :=
  fun hlt => h (String.lt_iff_toList_lt.mp hlt)

/-! ## C1: behaviour of the tick when the outbound send fails -/

/-- C1 counterexample: in `send_hourly_summary` the exception raised by
`send_message` (line 141) propagates before `cleanup_old_data` (line 150)
runs, so after a failed-send tick a bucket key strictly below the cutoff
is still present — the prune is NOT performed during that tick. -/
theorem failed_send_skips_prune_cex :
    ("2020-01-01-00", ({"P1"} : Finset String)) ∈
      (run_summary stBeforeTick "2024-06-01-05" "2024-05-31-05"
        (Except.error ())).hourly_tracker ∧
    "2020-01-01-00" < "2024-05-31-05" := by
  constructor
  · decide
  · exact string_lt_of_data (by decide)

/-- C1 (amended): if the outbound send of an hourly summary fails, the
whole tracker state — in particular the summarized bucket's recorded
set — is unchanged, and the prune/cleanup is skipped for that tick;
the cleanup of entries older than 24 hours runs only when the send
succeeds. -/
theorem failed_send_leaves_state_unchanged (st : TrackerState)
    (hour_key cutoff_key : String) :
    run_summary st hour_key cutoff_key (Except.error ()) = st ∧
    run_summary st hour_key cutoff_key (Except.ok ()) =
      ⟨cleanup_old_data st.hourly_tracker cutoff_key⟩ :=
  ⟨rfl, rfl⟩

/-! ## The subset invariant on reachable states -/

/-- The classifier only ever returns a key of the pattern configuration. -/
theorem findPoint_mem_keys (cfg : List (String × List String)) (t : String)
    (p : String) (h : findPoint cfg t = some p) : p ∈ cfg.map Prod.fst := by
  induction cfg with
  | nil => simp [findPoint] at h
  | cons cat rest ih =>
    obtain ⟨point_type, patterns⟩ := cat
    rw [findPoint] at h
    split at h
    · cases h
      exact List.mem_cons_self _ _
    · exact List.mem_cons_of_mem _ (ih h)

/-- A classified point always lies in the full category set. -/
theorem identify_mem_full (t : Option String) (p : String)
    (h : identify_message_point t = some p) : p ∈ fullCategorySet := by
  match t with
  | none => cases h
  | some s =>
    rw [identify_message_point] at h
    split at h
    · cases h
    · have hp := findPoint_mem_keys MESSAGE_PATTERNS s p h
      have : MESSAGE_PATTERNS.map Prod.fst = EXPECTED_MESSAGES := by decide
      rw [this] at hp
      exact List.mem_toFinset.mpr hp

/-- Ingesting a point of the full category set preserves the subset
invariant on the underlying association list. -/
theorem ingestList_wf {m : List (String × Finset String)} {hour_key point : String}
    (hm : ∀ k s, (k, s) ∈ m → s ⊆ fullCategorySet) (hp : point ∈ fullCategorySet) :
    ∀ k s, (k, s) ∈ ingestList m hour_key point → s ⊆ fullCategorySet := by
  induction m with
  | nil =>
    intro k s hmem
    rw [ingestList] at hmem
    rcases List.mem_singleton.mp hmem with h
    cases h
    simpa using hp
  | cons kv rest ih =>
    obtain ⟨k', s'⟩ := kv
    intro k s hmem
    rw [ingestList] at hmem
    split at hmem
    · rcases List.mem_cons.mp hmem with h | h
      · cases h
        exact Finset.insert_subset hp (hm k' s' (List.mem_cons_self _ _))
      · exact hm k s (List.mem_cons_of_mem _ h)
    · rcases List.mem_cons.mp hmem with h | h
      · cases h
        exact hm k' s' (List.mem_cons_self _ _)
      · exact ih (fun a b hab => hm a b (List.mem_cons_of_mem _ hab)) k s h

/-- A successful lookup returns an entry of the list. -/
theorem lookup_mem : ∀ {m : List (String × Finset String)} {k : String}
    {s : Finset String}, m.lookup k = some s → (k, s) ∈ m := by
  intro m
  induction m with
  | nil => intro k s h; cases h
  | cons kv rest ih =>
    intro k s h
    obtain ⟨k', s'⟩ := kv
    rw [List.lookup] at h
    by_cases hk : k = k'
    · subst hk
      simp at h
      subst h
      exact List.mem_cons_self _ _
    · have hbeq : (k == k') = false := beq_false_of_ne hk
      rw [hbeq] at h
      exact List.mem_cons_of_mem _ (ih h)

/-- On a well-formed state every snapshot is a subset of the full
category set. -/
theorem snapshot_wf {st : TrackerState} (hwf : WellFormed st) (hour_key : String) :
    snapshot st hour_key ⊆ fullCategorySet := by
  unfold snapshot
  cases hlk : st.hourly_tracker.lookup hour_key with
  | none => simp
  | some s =>
    simpa using hwf hour_key s (lookup_mem hlk)

/-- `handle_message` preserves the subset invariant. -/
theorem handle_message_wf {st : TrackerState} (hwf : WellFormed st)
    (msg : TgMessage) (hour_key : String) :
    WellFormed (handle_message st msg hour_key) := by
  unfold handle_message
  split
  · exact hwf
  · split
    · split
      next point hpoint =>
        exact ingestList_wf hwf (identify_mem_full _ point hpoint)
      next => exact hwf
    · exact hwf

/-- `run_summary` preserves the subset invariant: it either leaves the
state unchanged or filters entries out of it. -/
theorem run_summary_wf {st : TrackerState} (hwf : WellFormed st)
    (hour_key cutoff_key : String) (sendResult : Except Unit Unit) :
    WellFormed (run_summary st hour_key cutoff_key sendResult) := by
  cases sendResult with
  | error e => exact hwf
  | ok u =>
    intro k s hmem
    exact hwf k s (List.mem_filter.mp hmem).1

/-- Every reachable state is well-formed. -/
theorem reachable_wf {st : TrackerState} (h : Reachable st) : WellFormed st := by
  induction h with
  | init => intro k s hmem; cases hmem
  | msg st m hour_key _ ih => exact handle_message_wf ih m hour_key
  | tick st hour_key cutoff_key sendResult _ ih =>
      exact run_summary_wf ih hour_key cutoff_key sendResult

/-! ## C2: status trichotomy of the summary rendering -/

/-- C2: in the running tracker, for every bucket key, the rendered status
is COMPLETE iff the number of received categories equals the size of the
full category set, NO MESSAGES iff the received set is empty, and
INCOMPLETE iff the count is strictly between the two. -/
theorem statusOf_spec (r : Finset String) (hle : r.card ≤ 4) :
    (statusOf r = SummaryStatus.complete ↔ r.card = 4) ∧
    (statusOf r = SummaryStatus.noMessages ↔ r.card = 0) ∧
    (statusOf r = SummaryStatus.incomplete ↔ (0 < r.card ∧ r.card < 4)) := by
  unfold statusOf
  have hlen : EXPECTED_MESSAGES.length = 4 := rfl
  rw [hlen]
  split_ifs with h1 h2
  · exact ⟨⟨fun _ => h1, fun _ => rfl⟩,
      ⟨fun hx => hx.elim, fun h0 => absurd h1 (by omega)⟩,
      ⟨fun hx => hx.elim, fun hi => absurd h1 (by omega)⟩⟩
  · exact ⟨⟨fun hx => hx.elim, fun h4 => absurd h4 h1⟩,
      ⟨fun hx => hx.elim, fun h0 => absurd h0 (by omega)⟩,
      ⟨fun _ => ⟨h2, by omega⟩, fun _ => rfl⟩⟩
  · exact ⟨⟨fun hx => hx.elim, fun h4 => absurd h4 h1⟩,
      ⟨fun _ => by omega, fun _ => rfl⟩,
      ⟨fun hx => hx.elim, fun hi => absurd hi.1 h2⟩⟩

theorem summary_status_correct (st : TrackerState) (hst : Reachable st)
    (hour_key : String) :
    ((render_summary st hour_key).status = SummaryStatus.complete ↔
      (render_summary st hour_key).received.card = fullCategorySet.card) ∧
    ((render_summary st hour_key).status = SummaryStatus.noMessages ↔
      (render_summary st hour_key).received.card = 0) ∧
    ((render_summary st hour_key).status = SummaryStatus.incomplete ↔
      (0 < (render_summary st hour_key).received.card ∧
        (render_summary st hour_key).received.card < fullCategorySet.card)) := by
  have h4 : fullCategorySet.card = 4 := by decide
  have hle : (snapshot st hour_key).card ≤ 4 := by
    have h := Finset.card_le_card (snapshot_wf (reachable_wf hst) hour_key)
    omega
  have hrs : (render_summary st hour_key).status = statusOf (snapshot st hour_key) := rfl
  have hrc : (render_summary st hour_key).received = snapshot st hour_key := rfl
  rw [hrs, hrc, h4]
  exact statusOf_spec (snapshot st hour_key) hle

/-- C2 witness: an empty bucket renders as NO MESSAGES, obtained from the
trichotomy theorem at a concrete reachable state. -/
theorem summary_status_correct_witness :
    (render_summary ⟨[]⟩ "2024-01-01-09").status = SummaryStatus.noMessages :=
  (summary_status_correct ⟨[]⟩ Reachable.init "2024-01-01-09").2.1.mpr (by decide)

/-! ## C5: idempotent ingestion -/

/-- Adding the same point to the same bucket twice leaves the underlying
association list exactly as after one addition (set semantics). -/
theorem ingestList_idem (m : List (String × Finset String)) (k c : String) :
    ingestList (ingestList m k c) k c = ingestList m k c := by
  induction m with
  | nil => simp [ingestList]
  | cons kv rest ih =>
    obtain ⟨k', s⟩ := kv
    by_cases h : k' = k <;> simp [ingestList, h, ih, Finset.insert_idem]

/-- C5: ingestion is idempotent — `ingest k c` twice in succession yields
the same tracker state, and in particular the same `snapshot k`, as a
single `ingest k c`. -/
theorem ingest_idempotent (st : TrackerState) (k c : String) :
    ingest (ingest st k c) k c = ingest st k c ∧
    snapshot (ingest (ingest st k c) k c) k = snapshot (ingest st k c) k := by
  have h : ingest (ingest st k c) k c = ingest st k c := by
    unfold ingest
    exact congrArg TrackerState.mk (ingestList_idem st.hourly_tracker k c)
  exact ⟨h, congrArg (fun t => snapshot t k) h⟩

/-! ## C7: pruning -/

/-- C7: after `cleanup_old_data m cutoff`, no key strictly below the
cutoff remains; every entry whose key is at or after the cutoff is
present, with its observed set unchanged, exactly as before; and when no
entry is due for removal the cleanup is a no-op. -/
theorem cleanup_old_data_correct (m : List (String × Finset String))
    (cutoff_key : String) :
    (∀ k s, (k, s) ∈ cleanup_old_data m cutoff_key → ¬ k < cutoff_key) ∧
    (∀ k s, ¬ k < cutoff_key →
      ((k, s) ∈ cleanup_old_data m cutoff_key ↔ (k, s) ∈ m)) ∧
    ((∀ k s, (k, s) ∈ m → ¬ k < cutoff_key) → cleanup_old_data m cutoff_key = m) := by
  refine ⟨?_, ?_, ?_⟩
  · intro k s hmem
    have := (List.mem_filter.mp hmem).2
    simpa using this
  · intro k s hge
    constructor
    · intro hmem
      exact (List.mem_filter.mp hmem).1
    · intro hmem
      exact List.mem_filter.mpr ⟨hmem, by simpa using hge⟩
  · intro hall
    apply List.filter_eq_self.mpr
    intro kv hkv
    obtain ⟨k, s⟩ := kv
    simpa using hall k s hkv

/-- C7 witness: pruning a two-bucket state at a cutoff between the keys
keeps the newer entry untouched, via the pruning theorem. -/
theorem cleanup_old_data_correct_witness :
    ("2024-01-02-11", ({"P2"} : Finset String)) ∈
      cleanup_old_data [("2024-01-01-09", {"P1"}), ("2024-01-02-11", {"P2"})]
        "2024-01-02-10" :=
  ((cleanup_old_data_correct
      [("2024-01-01-09", {"P1"}), ("2024-01-02-11", {"P2"})] "2024-01-02-10").2.1
    "2024-01-02-11" {"P2"} (string_not_lt_of_data (by decide))).2 (by decide)

/-! ## C10: every configured pattern carries a trailing space -/

/-- C10: under the reference configuration each category's pattern list is
exactly the category label followed by a trailing space, so a message
consisting of (or ending with) a bare label matches no pattern and the
classifier returns no category. -/
theorem bare_label_matches_nothing :
    (MESSAGE_PATTERNS.all fun cat => cat.2 == [cat.1 ++ " "]) = true ∧
    identify_message_point (some "P1") = none ∧
    identify_message_point (some "P2") = none ∧
    identify_message_point (some "P3") = none ∧
    identify_message_point (some "P4") = none ∧
    identify_message_point (some "Alert ends with P1") = none := by
  refine ⟨by decide, by decide, by decide, by decide, by decide, by decide⟩

/-! ## C3: received and missing partition the full category set -/

/-- C3: in every reachable tracker state, for every bucket key, the
received and missing sets of the summary rendering partition the full
category set — their union is the full set and their intersection is
empty. -/
theorem summary_sets_partition (st : TrackerState) (hst : Reachable st)
    (hour_key : String) :
    (render_summary st hour_key).received ∪ (render_summary st hour_key).missing =
      fullCategorySet ∧
    (render_summary st hour_key).received ∩ (render_summary st hour_key).missing =
      ∅ := by
  have hsub : snapshot st hour_key ⊆ fullCategorySet :=
    snapshot_wf (reachable_wf hst) hour_key
  constructor
  · show snapshot st hour_key ∪ (fullCategorySet \ snapshot st hour_key) =
      fullCategorySet
    exact Finset.union_sdiff_of_subset hsub
  · show snapshot st hour_key ∩ (fullCategorySet \ snapshot st hour_key) = ∅
    exact Finset.inter_sdiff_self _ _

/-- C3 witness: the partition property at the initial (empty, reachable)
state, obtained from the partition theorem. -/
theorem summary_sets_partition_witness :
    (render_summary ⟨[]⟩ "2024-01-01-09").received ∪
      (render_summary ⟨[]⟩ "2024-01-01-09").missing = fullCategorySet ∧
    (render_summary ⟨[]⟩ "2024-01-01-09").received ∩
      (render_summary ⟨[]⟩ "2024-01-01-09").missing = ∅ :=
  summary_sets_partition ⟨[]⟩ Reachable.init "2024-01-01-09"

/-! ## C4: the subset invariant holds in every reachable state -/

/-- C4: in every reachable tracker state, every bucket's observed set is
a subset of the full configured category set; the invariant holds
initially and is preserved by message ingestion (which only ever records
a classifier output, i.e. a key of the pattern configuration), by reads
(which do not touch the state), and by the pruning performed by the
summary tick. -/
theorem reachable_buckets_subset (st : TrackerState) (hst : Reachable st) :
    ∀ k s, (k, s) ∈ st.hourly_tracker → s ⊆ fullCategorySet :=
  reachable_wf hst

/-- C4 witness: the bucket created by handling one concrete `P1` message
from the configured chat and sender is a subset of the full category set,
via the invariant theorem. -/
theorem reachable_buckets_subset_witness :
    ({"P1"} : Finset String) ⊆ fullCategorySet :=
  reachable_buckets_subset stAfterOne
    (Reachable.msg ⟨[]⟩ msgP1 "2024-01-01-09" Reachable.init)
    "2024-01-01-09" {"P1"} (by decide)

/-! ## C6: pattern precedence follows configuration order -/

/-- `findPoint` returns the label of the first category (in configuration
order) with a matching pattern. -/
theorem findPoint_first (text : String) :
    ∀ (cfg : List (String × List String)) (i : Nat) (hi : i < cfg.length),
      (cfg.get ⟨i, hi⟩).2.any (fun pattern => patternHits pattern text) = true →
      (∀ j (hj : j < i),
        (cfg.get ⟨j, Nat.lt_trans hj hi⟩).2.any
          (fun pattern => patternHits pattern text) = false) →
      findPoint cfg text = some (cfg.get ⟨i, hi⟩).1 := by
  intro cfg
  induction cfg with
  | nil => intro i hi; exact absurd hi (Nat.not_lt_zero i)
  | cons cat rest ih =>
    intro i hi hm hf
    obtain ⟨point_type, patterns⟩ := cat
    match i with
    | 0 =>
      have hm' : patterns.any (fun pattern => patternHits pattern text) = true := hm
      show findPoint ((point_type, patterns) :: rest) text = some point_type
      rw [findPoint, if_pos hm']
    | i + 1 =>
      have h0 : patterns.any (fun pattern => patternHits pattern text) = false :=
        hf 0 (Nat.succ_pos i)
      rw [findPoint, if_neg (by simp [h0])]
      exact ih i (Nat.lt_of_succ_lt_succ hi) hm
        (fun j hj => hf (j + 1) (Nat.succ_lt_succ hj))

/-- C6: if a text contains (case-insensitively, as substrings) patterns of
two or more different categories, the classifier returns the category
whose patterns are checked first in the configuration iteration order:
the matching category of least index `i`, every category before it
matching nothing. -/
theorem classifier_precedence (text : String) (hne : text ≠ "")
    (i : Nat) (hi : i < MESSAGE_PATTERNS.length)
    (hmatch : (MESSAGE_PATTERNS.get ⟨i, hi⟩).2.any
      (fun pattern => patternHits pattern text) = true)
    (hfirst : ∀ j (hj : j < i),
      (MESSAGE_PATTERNS.get ⟨j, Nat.lt_trans hj hi⟩).2.any
        (fun pattern => patternHits pattern text) = false)
    (_hsecond : ∃ j, ∃ hj : j < MESSAGE_PATTERNS.length, i < j ∧
      (MESSAGE_PATTERNS.get ⟨j, hj⟩).2.any
        (fun pattern => patternHits pattern text) = true) :
    identify_message_point (some text) = some (MESSAGE_PATTERNS.get ⟨i, hi⟩).1 := by
  show (if text = "" then none else findPoint MESSAGE_PATTERNS text) =
    some (MESSAGE_PATTERNS.get ⟨i, hi⟩).1
  rw [if_neg hne]
  exact findPoint_first text MESSAGE_PATTERNS i hi hmatch hfirst

/-- C6 witness: a text matching both `P2` and `P1` patterns, with `P2`
occurring earlier in the text, classifies as `P1` because `P1` is checked
first in the configuration order. -/
theorem classifier_precedence_witness :
    identify_message_point (some "P2 before P1 here") = some "P1" :=
  classifier_precedence "P2 before P1 here" (by decide) 0 (by decide) (by decide)
    (fun j hj => absurd hj (Nat.not_lt_zero j))
    ⟨1, by decide, by decide, by decide⟩

/-! ## C9: only the first 100 characters are classified -/

/-- A successful initial-segment test yields the corresponding `take`. -/
theorem startsWithChars_spec : ∀ {needle hay : List Char},
    startsWithChars needle hay = true →
    needle.length ≤ hay.length ∧ hay.take needle.length = needle := by
  intro needle
  induction needle with
  | nil => intro hay _; simp
  | cons a as ih =>
    intro hay hs
    match hay with
    | [] => exact Bool.noConfusion hs
    | b :: bs =>
      rw [startsWithChars, Bool.and_eq_true] at hs
      obtain ⟨hab, hrest⟩ := hs
      have hab' : a = b := by simpa using hab
      obtain ⟨hl, ht⟩ := ih hrest
      subst hab'
      refine ⟨Nat.succ_le_succ hl, ?_⟩
      simpa [List.take_succ_cons] using ht

/-- A successful substring test yields an offset at which the needle
occurs, wholly inside the haystack. -/
theorem occursIn_exists : ∀ {needle hay : List Char},
    occursIn needle hay = true →
    ∃ i, i + needle.length ≤ hay.length ∧
      (hay.drop i).take needle.length = needle := by
  intro needle hay
  induction hay with
  | nil =>
    intro h
    rw [occursIn] at h
    have hempty : needle = [] := by
      cases needle with
      | nil => rfl
      | cons a as => exact Bool.noConfusion h
    subst hempty
    exact ⟨0, by simp, by simp⟩
  | cons c rest ih =>
    intro h
    rw [occursIn, Bool.or_eq_true] at h
    rcases h with h | h
    · obtain ⟨hl, ht⟩ := startsWithChars_spec h
      exact ⟨0, by simpa using hl, by simpa using ht⟩
    · obtain ⟨i, hle, heq⟩ := ih h
      refine ⟨i + 1, ?_, ?_⟩
      · simp only [List.length_cons]
        omega
      · simpa [List.drop_succ_cons] using heq

/-- Lowercasing commutes with the 100-character truncation. -/
theorem strLower_take (t : String) :
    (strLower ⟨t.data.take 100⟩).data = (strLower t).data.take 100 := by
  simp [strLower, List.map_take]

/-- If a (nonempty) pattern has no case-insensitive occurrence starting
before index 100, it does not hit the 100-character truncation. -/
theorem patternHits_take_false (pattern t : String) (hp : 0 < pattern.data.length)
    (hno : ∀ i, i < 100 → occursAt pattern t i = false) :
    patternHits pattern ⟨t.data.take 100⟩ = false := by
  cases hpv : patternHits pattern ⟨t.data.take 100⟩ with
  | false => rfl
  | true =>
    exfalso
    have h : occursIn (strLower pattern).data ((strLower t).data.take 100) = true := by
      have h2 := hpv
      unfold patternHits at h2
      rwa [strLower_take] at h2
    obtain ⟨i, hle, heq⟩ := occursIn_exists h
    have hplen : (strLower pattern).data.length = pattern.data.length := by
      simp [strLower]
    have hlen_take : ((strLower t).data.take 100).length ≤ 100 := by
      rw [List.length_take]; omega
    have hi : i < 100 := by omega
    have hdrop : ((strLower t).data.take 100).drop i =
        ((strLower t).data.drop i).take (100 - i) := List.drop_take ..
    rw [hdrop, List.take_take] at heq
    have hmin : min (strLower pattern).data.length (100 - i) =
        (strLower pattern).data.length := by omega
    rw [hmin] at heq
    have hocc := hno i hi
    rw [occursAt, heq] at hocc
    simp at hocc

/-- When every configured pattern misses the text, the classifier loop
returns no category. -/
theorem findPoint_none (text : String)
    (h1 : patternHits "P1 " text = false) (h2 : patternHits "P2 " text = false)
    (h3 : patternHits "P3 " text = false) (h4 : patternHits "P4 " text = false) :
    findPoint MESSAGE_PATTERNS text = none := by
  show findPoint [("P1", ["P1 "]), ("P2", ["P2 "]), ("P3", ["P3 "]), ("P4", ["P4 "])]
    text = none
  rw [findPoint, if_neg (by simp [h1]), findPoint, if_neg (by simp [h2]),
    findPoint, if_neg (by simp [h3]), findPoint, if_neg (by simp [h4]), findPoint]

/-- C9: only the first 100 characters of an inbound text are classified.
For a message from the configured chat and sender whose earliest
case-insensitive pattern occurrence begins at or after character index
100 — in particular when no pattern occurs at all, or when the text is
absent and is replaced by the literal string `"No text"` — no category
is recorded and no bucket's observed set changes. -/
theorem truncation_bounds_classification (st : TrackerState) (msg : TgMessage)
    (hour_key : String) (hchat : msg.chat_id = CHAT_ID)
    (hsender : senderIsTarget msg = true)
    (hocc : ∀ t, msg.text = some t → ∀ pattern, pattern ∈ allPatterns →
      ∀ i, i < 100 → occursAt pattern t i = false) :
    handle_message st msg hour_key = st := by
  unfold handle_message
  rw [if_neg (fun hne => hne hchat), if_pos hsender]
  have hid : identify_message_point (some (message_text_of msg.text)) = none := by
    cases htext : msg.text with
    | none => decide
    | some s =>
      by_cases hs : s = ""
      · subst hs; decide
      · have hmt : message_text_of (some s) = ⟨s.data.take 100⟩ := by
          simp [message_text_of, hs]
        rw [hmt]
        have hno : ∀ pattern, pattern ∈ allPatterns →
            ∀ i, i < 100 → occursAt pattern s i = false := hocc s htext
        have hp1 : patternHits "P1 " ⟨s.data.take 100⟩ = false :=
          patternHits_take_false "P1 " s (by decide)
            (fun i hi => hno "P1 " (by decide) i hi)
        have hp2 : patternHits "P2 " ⟨s.data.take 100⟩ = false :=
          patternHits_take_false "P2 " s (by decide)
            (fun i hi => hno "P2 " (by decide) i hi)
        have hp3 : patternHits "P3 " ⟨s.data.take 100⟩ = false :=
          patternHits_take_false "P3 " s (by decide)
            (fun i hi => hno "P3 " (by decide) i hi)
        have hp4 : patternHits "P4 " ⟨s.data.take 100⟩ = false :=
          patternHits_take_false "P4 " s (by decide)
            (fun i hi => hno "P4 " (by decide) i hi)
        show (if (⟨s.data.take 100⟩ : String) = "" then none
          else findPoint MESSAGE_PATTERNS ⟨s.data.take 100⟩) = none
        by_cases h0 : (⟨s.data.take 100⟩ : String) = ""
        · rw [if_pos h0]
        · rw [if_neg h0]
          exact findPoint_none ⟨s.data.take 100⟩ hp1 hp2 hp3 hp4
  rw [hid]

/-- C9 witness: a pattern-free short message from the configured chat and
sender leaves the empty tracker unchanged, via the truncation theorem. -/
theorem truncation_bounds_classification_witness :
    handle_message ⟨[]⟩ msgShort "2024-01-01-09" = ⟨[]⟩ :=
  truncation_bounds_classification ⟨[]⟩ msgShort "2024-01-01-09" rfl (by decide)
    (by
      intro t ht pattern hpat i hi
      have h2 : (some "status ok" : Option String) = some t := ht
      injection h2 with h3
      subst h3
      have hall : ∀ pattern ∈ allPatterns, ∀ i < 100,
          occursAt pattern "status ok" i = false := by decide
      exact hall pattern hpat i hi)

/-! ## C8: bucket keys sort chronologically -/

/-- Digit characters compare like the digits they print. -/
theorem digitChar_lt : ∀ b, b < 10 → ∀ a, a < b → digitChar a < digitChar b := by
  decide

/-- A fixed common left part preserves lexicographic order. -/
theorem lex_append_same (l : List Char) : ∀ {r1 r2 : List Char},
    List.Lex (· < ·) r1 r2 → List.Lex (· < ·) (l ++ r1) (l ++ r2) := by
  induction l with
  | nil => intro r1 r2 h; simpa using h
  | cons a l ih => intro r1 r2 h; exact List.Lex.cons (ih h)

/-- Lexicographic order on equal-length left parts decides the order of
the concatenations, whatever the right parts are. -/
theorem lex_append_of_lt : ∀ {l1 l2 : List Char}, List.Lex (· < ·) l1 l2 →
    l1.length = l2.length → ∀ (r1 r2 : List Char),
    List.Lex (· < ·) (l1 ++ r1) (l2 ++ r2) := by
  intro l1 l2 h
  induction h with
  | nil => intro hlen; exact absurd hlen (by simp)
  | @cons a as bs h ih =>
    intro hlen r1 r2
    exact List.Lex.cons (ih (by simpa using hlen) r1 r2)
  | @rel a as b bs hab =>
    intro _ r1 r2
    exact List.Lex.rel hab

/-- Two-digit rendering is strictly monotone below 100. -/
theorem digits2_lt {a b : Nat} (hb : b < 100) (hab : a < b) :
    List.Lex (· < ·) (digits2 a) (digits2 b) := by
  rcases Nat.lt_or_ge (a / 10) (b / 10) with h | h
  · exact List.Lex.rel (digitChar_lt (b / 10) (by omega) (a / 10) h)
  · have heq : a / 10 = b / 10 :=
      Nat.le_antisymm (Nat.div_le_div_right (Nat.le_of_lt hab)) h
    have hm : a % 10 < b % 10 := by omega
    rw [digits2, digits2, heq]
    exact List.Lex.cons (List.Lex.rel (digitChar_lt (b % 10) (by omega) (a % 10) hm))

/-- Four-digit rendering is strictly monotone below 10000. -/
theorem digits4_lt {a b : Nat} (hb : b < 10000) (hab : a < b) :
    List.Lex (· < ·) (digits4 a) (digits4 b) := by
  rcases Nat.lt_or_ge (a / 100) (b / 100) with h | h
  · exact lex_append_of_lt (digits2_lt (by omega) h) (by simp [digits2]) _ _
  · have heq : a / 100 = b / 100 :=
      Nat.le_antisymm (Nat.div_le_div_right (Nat.le_of_lt hab)) h
    have hm : a % 100 < b % 100 := by omega
    rw [digits4, digits4, heq]
    exact lex_append_same _ (digits2_lt (by omega) hm)

/-- Chronologically ordered valid timestamps produce lexicographically
ordered key character lists. -/
theorem hourKeyChars_lt {t1 t2 : HourStamp} (h1 : t1.valid) (h2 : t2.valid)
    (hlt : chronoLT t1 t2) :
    List.Lex (· < ·) (hourKeyChars t1) (hourKeyChars t2) := by
  obtain ⟨hy1a, hy1b, hm1, hd1, hh1⟩ := h1
  obtain ⟨hy2a, hy2b, hm2, hd2, hh2⟩ := h2
  rcases hlt with hy | ⟨hy, hrest⟩
  · exact lex_append_of_lt (digits4_lt (by omega) hy)
      (by simp [digits4, digits2]) _ _
  · rw [hourKeyChars, hourKeyChars, hy]
    apply lex_append_same
    rcases hrest with hm | ⟨hm, hrest⟩
    · exact List.Lex.cons
        (lex_append_of_lt (digits2_lt (by omega) hm) (by simp [digits2]) _ _)
    · rw [hm]
      apply List.Lex.cons
      apply lex_append_same
      rcases hrest with hd | ⟨hd, hh⟩
      · exact List.Lex.cons
          (lex_append_of_lt (digits2_lt (by omega) hd) (by simp [digits2]) _ _)
      · rw [hd]
        apply List.Lex.cons
        apply lex_append_same
        exact List.Lex.cons (digits2_lt (by omega) hh)

/-- Chronological order on hour stamps is trichotomous. -/
theorem chrono_trichotomy (t1 t2 : HourStamp) :
    chronoLT t1 t2 ∨
    (t1.year = t2.year ∧ t1.month = t2.month ∧ t1.day = t2.day ∧
      t1.hour = t2.hour) ∨
    chronoLT t2 t1 := by
  unfold chronoLT
  omega

/-- C8: the bucket-key function is strictly monotone with respect to
time — for valid timestamps falling in different hours, the earlier
timestamp's `%Y-%m-%d-%H` key sorts lexicographically strictly before
the later one's, and conversely, so lexicographic string order on keys
coincides with chronological order. -/
theorem hour_key_monotone (t1 t2 : HourStamp) (h1 : t1.valid) (h2 : t2.valid) :
    chronoLT t1 t2 ↔ hour_key_of t1 < hour_key_of t2 := by
  constructor
  · intro h
    exact String.lt_iff_toList_lt.mpr (hourKeyChars_lt h1 h2 h)
  · intro h
    rcases chrono_trichotomy t1 t2 with hlt | heq | hgt
    · exact hlt
    · exfalso
      have hk : hourKeyChars t1 = hourKeyChars t2 := by
        rw [hourKeyChars, hourKeyChars, heq.1, heq.2.1, heq.2.2.1, heq.2.2.2]
      have hlex : hourKeyChars t1 < hourKeyChars t2 :=
        String.lt_iff_toList_lt.mp h
      rw [hk] at hlex
      exact lt_irrefl _ hlex
    · exfalso
      have hlex : hourKeyChars t1 < hourKeyChars t2 :=
        String.lt_iff_toList_lt.mp h
      have hgt' : hourKeyChars t2 < hourKeyChars t1 := hourKeyChars_lt h2 h1 hgt
      exact lt_irrefl _ (lt_trans hlex hgt')

/-- C8 witness: a concrete earlier hour's key sorts strictly before a
concrete later hour's key, via the monotonicity theorem. -/
theorem hour_key_monotone_witness :
    hour_key_of ⟨2024, 1, 1, 9⟩ < hour_key_of ⟨2024, 1, 2, 10⟩ :=
  (hour_key_monotone ⟨2024, 1, 1, 9⟩ ⟨2024, 1, 2, 10⟩
    (by unfold HourStamp.valid; decide)
    (by unfold HourStamp.valid; decide)).mp
    (by unfold chronoLT; decide)
